import Mathlib

/-!
Shallow embedding of `build_run.py` (docker-build-run): a CLI wrapper that
builds a Docker image, reconciles (stops/renames) existing containers that
occupy the canonical container name, starts a new container and polls its
liveness, and tags/pushes the image.  The Docker daemon is the external
collaborator: its listing is modelled as a `List Container`, its build and
push streams as lists of events, and daemon-side effects are recorded as an
explicit action trace.
-/

/-- Character-wise model of the Python single-character replacements
`.replace(' ', '_').replace(':', '_')` applied on lines 89 and 92 of
`build_run.py` (a single-character `str.replace` is exactly a map over the
characters; `'_'` is neither `' '` nor `':'`, so performing the two
replacements in sequence equals one simultaneous map). -/
def sanChar (c : Char) : Char :=
  if c = ' ' then '_' else if c = ':' then '_' else c

/-- Model of `s.replace(' ', '_').replace(':', '_')` from `build_run.py`
lines 89 and 92. -/
def sanitize (s : String) : String :=
  String.mk (s.data.map sanChar)

/-- ASCII model of Python `str.lower` for a single character. -/
def lowerChar (c : Char) : Char :=
  if 'A' ≤ c ∧ c ≤ 'Z' then Char.ofNat (c.toNat + 32) else c

/-- Model of Python `str.lower()` used on `container['State'].lower()`
(`build_run.py` line 85).  The daemon's state strings are ASCII, for which
the character-wise ASCII lowering coincides with Python's `str.lower`. -/
def pyLower (s : String) : String :=
  String.mk (s.data.map lowerChar)

/-- Decimal digits of `n`, least significant first, computed with explicit
fuel so that the definition is structural and kernel-reducible.  With
`fuel ≥ n` this agrees with `Nat.digits 10 n` (proved below). -/
def digitsRevAux : Nat → Nat → List Nat
  | _, 0 => []
  | 0, _ + 1 => []
  | fuel + 1, n + 1 => ((n + 1) % 10) :: digitsRevAux fuel ((n + 1) / 10)

/-- Model of Python `str(n)` for a non-negative integer: the usual decimal
rendering (used for the collision counter on line 92 and for the error code
on line 18 of `build_run.py`). -/
def pyStr (n : Nat) : String :=
  if n = 0 then "0"
  else String.mk ((digitsRevAux n n).reverse.map Nat.digitChar)

/-- Inverse of `Nat.digitChar` on decimal digits, used only to prove that
`pyStr` is injective. -/
def unDigit (c : Char) : Nat := c.toNat - 48

/-- Reads a decimal string back into a number; left inverse of `pyStr`. -/
def strToNatM (s : String) : Nat :=
  Nat.ofDigits 10 ((s.data.map unDigit).reverse)

/-- Model of the Python substring test `pat in s`. -/
def hasSub (s pat : String) : Bool :=
  s.data.tails.any (fun t => pat.data.isPrefixOf t)

/-- The tool's own error type (`class BuildRunError(Exception)`,
`build_run.py` lines 12-18): a numeric code and a message. -/
structure BuildRunError where
  code : Nat
  message : String
deriving Repr, DecidableEq

/-- Model of `BuildRunError.__str__` (`build_run.py` lines 17-18):
`f'BuildRunError: {self.code} - {self.message}'`. -/
def BuildRunError.str (e : BuildRunError) : String :=
  "BuildRunError: " ++ pyStr e.code ++ " - " ++ e.message

/-- One decoded event of the daemon's build log stream; only the optional
`stream` text field is consulted by the tool (`build_run.py` lines 51-55). -/
structure BuildEvent where
  stream : Option String
deriving Repr, DecidableEq

/-- Whether one build-log event contains the success marker:
`'stream' in i` and `'Successfully built' in i['stream']`
(`build_run.py` lines 52-53). -/
def hasMarker (e : BuildEvent) : Bool :=
  match e.stream with
  | some s => hasSub s "Successfully built"
  | none => false

/-- Model of the build block of `BuildRun.main` (`build_run.py` lines
46-58), given the decoded build-log stream `events` the daemon returns.
As in the source, the loop that scans the stream for the success marker
(lines 51-55) runs only when `verbose >= 1`; `build_success` starts out
`False` and is set only inside that loop. -/
def buildStep (verbose : Nat) (events : List BuildEvent) :
    Except BuildRunError Unit :=
  if decide (1 ≤ verbose) && events.any hasMarker then Except.ok ()
  else Except.error ⟨101, "Build Failed"⟩

/-- One container record as returned by the daemon listing: id, name,
creation timestamp (epoch seconds) and state (`build_run.py` lines 84-89
read `Id`, `State`, `Created`, and the name is what the `name` filter
matched). -/
structure Container where
  id : String
  name : String
  created : Nat
  state : String
deriving Repr, DecidableEq

/-- Model of `api_client.containers(all=True, filters={'name': '^pat$'})`:
the anchored regular expression makes the filter an exact name match
(`build_run.py` lines 74-79 and 91). -/
def listContainers (st : List Container) (pat : String) : List Container :=
  st.filter (fun c => c.name == pat)

/-- Whether some container in the listing bears the name `s` (the loop
condition on line 91 of `build_run.py` tests the listing for truthiness). -/
def nameTaken (st : List Container) (s : String) : Bool :=
  !(listContainers st s).isEmpty

/-- Daemon effect of `api_client.stop(container_id)`: the container with
that id stops running (its name and id are unchanged). -/
def stopContainer (st : List Container) (i : String) : List Container :=
  st.map (fun c => if c.id == i then { c with state := "exited" } else c)

/-- Daemon effect of `api_client.rename(container_id, rename)`: the
container with that id takes the new name. -/
def renameContainer (st : List Container) (i : String) (newName : String) :
    List Container :=
  st.map (fun c => if c.id == i then { c with name := newName } else c)

/-- The `k`-th rename candidate computed by `build_run.py` lines 89-93:
`k = 0` gives `f'{name}_{ts}'` with spaces and colons replaced by
underscores, and `k ≥ 1` gives `f'{name}_{ts}_{k}'` with the same
replacement, where `ts` is the rendered creation timestamp
(`datetime.fromtimestamp(container["Created"])`). -/
def candidate (name ts : String) (k : Nat) : String :=
  if k = 0 then sanitize (name ++ "_" ++ ts)
  else sanitize (name ++ "_" ++ ts ++ "_" ++ pyStr k)

/-- The `while` loop of `build_run.py` lines 90-93: starting from candidate
`k`, try successive candidates until one is absent from the daemon listing.
Fuel makes the recursion structural; `findRenameAux_succeeds` shows fuel
`st.length + 1` always suffices. -/
def findRenameAux (st : List Container) (name ts : String) :
    Nat → Nat → Option (String × Nat)
  | _, 0 => none
  | k, fuel + 1 =>
    if nameTaken st (candidate name ts k) then
      findRenameAux st name ts (k + 1) fuel
    else some (candidate name ts k, k)

/-- The rename target chosen for one matched container: the first free
candidate (`build_run.py` lines 89-93). -/
def findRename (st : List Container) (name ts : String) : String :=
  match findRenameAux st name ts 0 (st.length + 1) with
  | some (r, _) => r
  | none => candidate name ts 0

/-- One daemon-mutating request issued by the tool, recorded as a trace
element. -/
inductive Act where
  | stop (id : String)
  | rename (id : String) (newName : String)
  | create (name : String)
  | poll (t : Nat)
  | tagImage (src target : String)
  | pushImage (target : String)
deriving Repr, DecidableEq

/-- Body of the `for container in all_containers` loop (`build_run.py`
lines 83-97), threading the daemon state and the action trace: stop the
container if its state is `running`, pick the first free rename candidate
(queried against the daemon state after the stop, as in the source, where
the listing calls on line 91 happen after line 88), and rename.
`fmt` renders `datetime.fromtimestamp` of the `Created` field. -/
def reconcileStep (fmt : Nat → String) (name : String)
    (acc : List Container × List Act) (c : Container) :
    List Container × List Act :=
  let stopped :=
    if pyLower c.state == "running" then stopContainer acc.1 c.id else acc.1
  let sacts :=
    if pyLower c.state == "running" then [Act.stop c.id] else []
  let r := findRename stopped name (fmt c.created)
  (renameContainer stopped c.id r, acc.2 ++ sacts ++ [Act.rename c.id r])

/-- The whole reconciliation phase (`build_run.py` lines 74-97): list every
container whose name exactly matches `name` (one snapshot, taken before the
loop), then process each matched record in order. -/
def reconcile (fmt : Nat → String) (name : String) (st : List Container) :
    List Container × List Act :=
  (listContainers st name).foldl (reconcileStep fmt name) (st, [])

/-- Replay of one recorded action on a daemon listing (used to state that
every rename was chosen against the listing as it stood at that moment).
During reconciliation only `stop` and `rename` occur; the other actions do
not modify the part of the listing reconciliation reads. -/
def applyAct (st : List Container) : Act → List Container
  | Act.stop i => stopContainer st i
  | Act.rename i r => renameContainer st i r
  | _ => st

/-- Replay of a trace of recorded actions, in order. -/
def applyActs (st : List Container) (acts : List Act) : List Container :=
  acts.foldl applyAct st

/-- Holds when every `rename` action in the trace assigns a name that no
container bears in the daemon listing at the moment the rename is issued
(replaying the earlier actions of the trace first). -/
def renamesFreshB : List Container → List Act → Bool
  | _, [] => true
  | st, a :: rest =>
    (match a with
     | Act.rename _ r => !(nameTaken st r)
     | _ => true) && renamesFreshB (applyAct st a) rest

/-- The liveness poll loop of `build_run.py` lines 112-120, written over a
nonnegative remaining wait `v` (the Python loop runs while `wait >= 0`).
`listed i` tells whether the daemon still lists the canonical name at the
`i`-th poll; the result is the `run_success` flag together with the indices
of the polls performed, in order. -/
def pollLoopN (listed : Nat → Bool) : Nat → Nat → Bool × List Nat
  | i, 0 => if listed i then (true, [i]) else (false, [i])
  | i, v + 1 =>
    if listed i then
      ((pollLoopN listed (i + 1) v).1, i :: (pollLoopN listed (i + 1) v).2)
    else (false, [i])

/-- The poll loop for an arbitrary integer `wait` option value: with
`wait < 0` the Python `while wait >= 0` loop body never runs and
`run_success` keeps its initial value `True`. -/
def pollLoop (listed : Nat → Bool) (wait : Int) : Bool × List Nat :=
  if wait < 0 then (true, []) else pollLoopN listed 0 wait.toNat

/-- Result of the run block: the daemon listing afterwards, the trace of
daemon requests, and the liveness verdict (`some run_success` when the
poll loop ran, `none` when it did not). -/
structure RunOutcome where
  state : List Container
  acts : List Act
  watch : Option Bool
deriving Repr, DecidableEq

/-- Model of the run block of `BuildRun.main` (`build_run.py` lines
60-122): reconcile the canonical name, create the new container (the
daemon assigns it id `newId`, creation time `newCreated`, state
`running`), then — only when `verbose >= 1`, since the whole block of
lines 104-122 sits inside `if verbose >= 1:` — run the liveness poll
loop. -/
def runStep (fmt : Nat → String) (verbose : Nat) (wait : Int)
    (listed : Nat → Bool) (name newId : String) (newCreated : Nat)
    (st : List Container) : RunOutcome :=
  let rec1 := reconcile fmt name st
  let st2 := rec1.1 ++ [⟨newId, name, newCreated, "running"⟩]
  let acts2 := rec1.2 ++ [Act.create name]
  if 1 ≤ verbose then
    let p := pollLoop listed wait
    ⟨st2, acts2 ++ p.2.map Act.poll, some p.1⟩
  else ⟨st2, acts2, none⟩

/-- The registry target `f'{repo_name}/{user}:{env}'` used by the push
block (`build_run.py` lines 125-135). -/
def pushTarget (repoName user env : String) : String :=
  repoName ++ "/" ++ user ++ ":" ++ env

/-- Outcome of consuming the daemon's push stream: it either completes, or
raises `docker.errors.APIError`, or raises some other exception. -/
inductive PushOutcome where
  | done
  | apiError
  | rawError (msg : String)
deriving Repr, DecidableEq

/-- Model of the push block of `BuildRun.main` (`build_run.py` lines
124-135): first `api_client.tag` (its boolean result is `tagOk`); when it
is false, `BuildRunError(102, ...)` is raised and the push call is never
reached.  Otherwise the push stream is consumed (the list comprehension on
line 131 iterates the stream regardless of verbosity); an `APIError`
raised there is caught and re-raised as `BuildRunError(103, ...)`, while
any other exception propagates raw (modelled as `Sum.inr`). -/
def pushStep (repoName user env : String) (tagOk : Bool)
    (pushRes : PushOutcome) :
    Except (Sum BuildRunError String) Unit × List Act :=
  let target := pushTarget repoName user env
  let tagAct := Act.tagImage (user ++ ":" ++ env) target
  if tagOk then
    match pushRes with
    | PushOutcome.done => (Except.ok (), [tagAct, Act.pushImage target])
    | PushOutcome.apiError =>
      (Except.error (Sum.inl ⟨103, "Failed to push " ++ target⟩),
       [tagAct, Act.pushImage target])
    | PushOutcome.rawError m =>
      (Except.error (Sum.inr m), [tagAct, Act.pushImage target])
  else
    (Except.error (Sum.inl ⟨102, "Failed to tag image as " ++ target⟩),
     [tagAct])

/-- Model of `BuildRun.main` (`build_run.py` lines 22-135): the optional
build, run and push blocks in order, returning either unit, a
`BuildRunError` (`Sum.inl`), or a raw unwrapped exception (`Sum.inr`),
together with the trace of daemon requests issued by the run and push
blocks. -/
def buildRunMain (verbose : Nat) (buildFlag runFlag pushFlag : Bool)
    (events : List BuildEvent) (fmt : Nat → String) (wait : Int)
    (listed : Nat → Bool) (user env repoName newId : String)
    (newCreated : Nat) (st : List Container) (tagOk : Bool)
    (pushRes : PushOutcome) :
    Except (Sum BuildRunError String) Unit × List Act :=
  let name := user ++ "_" ++ env
  match (if buildFlag then buildStep verbose events else Except.ok ()) with
  | Except.error e => (Except.error (Sum.inl e), [])
  | Except.ok _ =>
    let ro :=
      if runFlag then runStep fmt verbose wait listed name newId newCreated st
      else ⟨st, [], none⟩
    if pushFlag then
      let pr := pushStep repoName user env tagOk pushRes
      (pr.1, ro.acts ++ pr.2)
    else (Except.ok (), ro.acts)

/-- Model of the top-level entry point `main` (`build_run.py` lines
155-160): a `BuildRunError` from `BuildRun.main` is caught there — and
nowhere else — and printed via `__str__`, after which the function
returns (the process ends); any other exception is not caught and
propagates unhandled. -/
def mainTop (r : Except (Sum BuildRunError String) Unit) :
    Except String (List String) :=
  match r with
  | Except.ok _ => Except.ok []
  | Except.error (Sum.inl e) => Except.ok [e.str]
  | Except.error (Sum.inr w) => Except.error w

/-- The dockerfile actually used by the build block (`build_run.py` line
29): `f'Dockerfile.{env}'` when no override was supplied, otherwise the
override unchanged. -/
def effectiveDockerfile (env : String) (dockerfile : Option String) :
    String :=
  match dockerfile with
  | none => "Dockerfile." ++ env
  | some d => d

/-! ### Basic facts about the string helpers -/

theorem mk_append (l l' : List Char) :
    String.mk l ++ String.mk l' = String.mk (l ++ l') := rfl

theorem sanitize_data (s : String) :
    (sanitize s).data = s.data.map sanChar := rfl

theorem digitsRevAux_eq (fuel n : Nat) (h : n ≤ fuel) :
    digitsRevAux fuel n = Nat.digits 10 n := by
  induction fuel generalizing n with
  | zero =>
    interval_cases n
    rw [Nat.digits_zero]
    exact rfl
  | succ f ih =>
    match n with
    | 0 =>
      rw [Nat.digits_zero]
      exact rfl
    | n + 1 =>
      rw [digitsRevAux, Nat.digits_def' (b := 10) (by norm_num) (Nat.succ_pos n)]
      congr 1
      exact ih _ (by omega)

theorem pyStr_eq_digits {n : Nat} (hn : n ≠ 0) :
    pyStr n = String.mk ((Nat.digits 10 n).reverse.map Nat.digitChar) := by
  rw [pyStr, if_neg hn, digitsRevAux_eq n n le_rfl]

theorem unDigit_digitChar {d : Nat} (h : d < 10) :
    unDigit (Nat.digitChar d) = d := by
  interval_cases d <;> decide

theorem sanChar_digitChar {d : Nat} (h : d < 10) :
    sanChar (Nat.digitChar d) = Nat.digitChar d := by
  interval_cases d <;> decide

theorem pyStr_chars {n : Nat} {c : Char} (hc : c ∈ (pyStr n).data) :
    ∃ d, d < 10 ∧ c = Nat.digitChar d := by
  by_cases hn : n = 0
  · subst hn
    have : c = '0' := by
      simpa [pyStr] using hc
    exact ⟨0, by norm_num, by simp [this]; rfl⟩
  · rw [pyStr_eq_digits hn] at hc
    obtain ⟨d, hd, hdc⟩ := List.mem_map.mp hc
    exact ⟨d, Nat.digits_lt_base (by norm_num) (List.mem_reverse.mp hd), hdc.symm⟩

theorem map_sanChar_pyStr_data (n : Nat) :
    (pyStr n).data.map sanChar = (pyStr n).data := by
  have h : ∀ c ∈ (pyStr n).data, sanChar c = id c := by
    intro c hc
    obtain ⟨d, hd, rfl⟩ := pyStr_chars hc
    simpa using sanChar_digitChar hd
  rw [List.map_congr_left h, List.map_id]

theorem sanitize_pyStr (n : Nat) : sanitize (pyStr n) = pyStr n :=
  congrArg String.mk (map_sanChar_pyStr_data n)

theorem strToNatM_pyStr (n : Nat) : strToNatM (pyStr n) = n := by
  by_cases hn : n = 0
  · subst hn; decide
  · rw [pyStr_eq_digits hn]
    show Nat.ofDigits 10
      ((((Nat.digits 10 n).reverse.map Nat.digitChar).map unDigit).reverse) = n
    rw [List.map_map]
    have h : (Nat.digits 10 n).reverse.map (unDigit ∘ Nat.digitChar)
        = (Nat.digits 10 n).reverse.map id := by
      apply List.map_congr_left
      intro d hd
      simpa using
        unDigit_digitChar (Nat.digits_lt_base (by norm_num) (List.mem_reverse.mp hd))
    rw [h, List.map_id, List.reverse_reverse, Nat.ofDigits_digits]

theorem pyStr_injective : Function.Injective pyStr :=
  Function.LeftInverse.injective strToNatM_pyStr

/-! ### Facts about the rename candidates -/

theorem candidate_data_length (name ts : String) (k : Nat) :
    (candidate name ts k).data.length
      = if k = 0 then name.data.length + 1 + ts.data.length
        else name.data.length + 1 + ts.data.length + 1 + (pyStr k).data.length := by
  by_cases hk : k = 0 <;>
    simp [candidate, hk, sanitize, String.data_append] <;> omega

theorem candidate_length (name ts : String) (k : Nat) :
    name.data.length < (candidate name ts k).data.length := by
  rw [candidate_data_length]
  split <;> omega

theorem candidate_ne_name (name ts : String) (k : Nat) :
    candidate name ts k ≠ name := by
  intro h
  have := congrArg (fun s => s.data.length) h
  have hlt := candidate_length name ts k
  simp only at this
  omega

theorem candidate_injective (name ts : String) :
    Function.Injective (candidate name ts) := by
  intro j k h
  match j, k with
  | 0, 0 => rfl
  | 0, k + 1 =>
    exfalso
    have hl : (candidate name ts 0).data.length
        = (candidate name ts (k + 1)).data.length := by rw [h]
    have h0 := candidate_data_length name ts 0
    have h1 := candidate_data_length name ts (k + 1)
    rw [if_pos rfl] at h0
    rw [if_neg (Nat.succ_ne_zero k)] at h1
    omega
  | j + 1, 0 =>
    exfalso
    have hl : (candidate name ts (j + 1)).data.length
        = (candidate name ts 0).data.length := by rw [h]
    have h0 := candidate_data_length name ts 0
    have h1 := candidate_data_length name ts (j + 1)
    rw [if_pos rfl] at h0
    rw [if_neg (Nat.succ_ne_zero j)] at h1
    omega
  | j + 1, k + 1 =>
    have hdata := congrArg String.data h
    simp only [candidate, Nat.succ_ne_zero, if_false, sanitize_data,
      String.data_append, List.map_append, map_sanChar_pyStr_data,
      List.append_assoc] at hdata
    have hp : (pyStr (j + 1)).data = (pyStr (k + 1)).data := by
      have h1 := List.append_cancel_left
        (List.append_cancel_left (List.append_cancel_left hdata))
      exact List.append_cancel_left h1
    have : pyStr (j + 1) = pyStr (k + 1) := congrArg String.mk hp
    exact pyStr_injective this

/-! ### The collision-avoiding rename search -/

theorem nameTaken_iff (st : List Container) (s : String) :
    nameTaken st s = true ↔ ∃ c ∈ st, c.name = s := by
  constructor
  · intro h
    unfold nameTaken at h
    cases hE : listContainers st s with
    | nil => rw [hE] at h; exact absurd h (by decide)
    | cons a l =>
      have ha : a ∈ listContainers st s := by rw [hE]; exact List.mem_cons_self a l
      obtain ⟨hmem, hname⟩ := List.mem_filter.mp ha
      exact ⟨a, hmem, by simpa using hname⟩
  · intro ⟨c, hc, hn⟩
    unfold nameTaken
    have hmem : c ∈ listContainers st s :=
      List.mem_filter.mpr ⟨hc, by simp [hn]⟩
    cases hE : listContainers st s with
    | nil => rw [hE] at hmem; cases hmem
    | cons a l => rfl

theorem nameTaken_false_iff (st : List Container) (s : String) :
    nameTaken st s = false ↔ ∀ c ∈ st, c.name ≠ s := by
  constructor
  · intro h c hc hn
    have := (nameTaken_iff st s).mpr ⟨c, hc, hn⟩
    rw [h] at this
    cases this
  · intro h
    by_contra hne
    have htrue : nameTaken st s = true := by
      cases hb : nameTaken st s
      · exact absurd hb hne
      · rfl
    obtain ⟨c, hc, hn⟩ := (nameTaken_iff st s).mp htrue
    exact h c hc hn

theorem findRenameAux_some (st : List Container) (name ts : String) :
    ∀ fuel k r k', findRenameAux st name ts k fuel = some (r, k') →
      nameTaken st r = false ∧ r = candidate name ts k' ∧ k ≤ k' ∧
      ∀ j, k ≤ j → j < k' → nameTaken st (candidate name ts j) = true := by
  intro fuel
  induction fuel with
  | zero =>
    intro k r k' h
    exact Option.noConfusion h
  | succ f ih =>
    intro k r k' h
    rw [findRenameAux] at h
    by_cases ht : nameTaken st (candidate name ts k) = true
    · rw [if_pos ht] at h
      obtain ⟨h1, h2, h3, h4⟩ := ih (k + 1) r k' h
      refine ⟨h1, h2, by omega, ?_⟩
      intro j hj1 hj2
      rcases Nat.eq_or_lt_of_le hj1 with rfl | hlt
      · exact ht
      · exact h4 j (by omega) hj2
    · rw [if_neg ht] at h
      have hp := Option.some.inj h
      have hr : r = candidate name ts k := (congrArg Prod.fst hp).symm
      have hk : k' = k := (congrArg Prod.snd hp).symm
      subst hr
      subst hk
      refine ⟨by simpa using ht, rfl, le_rfl, ?_⟩
      intro j hj1 hj2
      omega

theorem findRenameAux_none (st : List Container) (name ts : String) :
    ∀ fuel k, findRenameAux st name ts k fuel = none →
      ∀ j, k ≤ j → j < k + fuel → nameTaken st (candidate name ts j) = true := by
  intro fuel
  induction fuel with
  | zero =>
    intro k _ j h1 h2
    omega
  | succ f ih =>
    intro k h j hj1 hj2
    rw [findRenameAux] at h
    by_cases ht : nameTaken st (candidate name ts k) = true
    · rw [if_pos ht] at h
      rcases Nat.eq_or_lt_of_le hj1 with rfl | hlt
      · exact ht
      · exact ih (k + 1) h j (by omega) (by omega)
    · rw [if_neg ht] at h
      exact Option.noConfusion h

theorem findRenameAux_succeeds (st : List Container) (name ts : String) :
    findRenameAux st name ts 0 (st.length + 1) ≠ none := by
  intro h
  have htaken : ∀ j, j ≤ st.length →
      nameTaken st (candidate name ts j) = true :=
    fun j hj =>
      findRenameAux_none st name ts (st.length + 1) 0 h j (Nat.zero_le j)
        (by omega)
  have hmem : ∀ j : Fin (st.length + 1),
      candidate name ts j.val ∈ (st.map Container.name).toFinset := by
    intro j
    obtain ⟨c, hc, hcn⟩ := (nameTaken_iff st _).mp (htaken j.val (by omega))
    rw [List.mem_toFinset, List.mem_map]
    exact ⟨c, hc, hcn⟩
  have hinj : Set.InjOn (fun j : Fin (st.length + 1) => candidate name ts j.val)
      ((Finset.univ : Finset (Fin (st.length + 1))) : Set (Fin (st.length + 1))) := by
    intro a _ b _ hab
    exact Fin.val_injective (candidate_injective name ts hab)
  have hcard := Finset.card_le_card_of_injOn _ (fun a _ => hmem a) hinj
  rw [Finset.card_univ, Fintype.card_fin] at hcard
  have hle : (st.map Container.name).toFinset.card ≤ st.length := by
    calc (st.map Container.name).toFinset.card
        ≤ (st.map Container.name).length := List.toFinset_card_le _
      _ = st.length := List.length_map st Container.name
  omega

theorem findRename_spec (st : List Container) (name ts : String) :
    ∃ k, findRename st name ts = candidate name ts k ∧
      nameTaken st (candidate name ts k) = false ∧
      ∀ j, j < k → nameTaken st (candidate name ts j) = true := by
  unfold findRename
  cases hfa : findRenameAux st name ts 0 (st.length + 1) with
  | none => exact absurd hfa (findRenameAux_succeeds st name ts)
  | some rk =>
    obtain ⟨r, k⟩ := rk
    obtain ⟨h1, h2, _, h4⟩ := findRenameAux_some st name ts _ _ _ _ hfa
    refine ⟨k, h2, ?_, fun j hj => h4 j (Nat.zero_le j) hj⟩
    rw [← h2]
    exact h1

theorem findRename_free (st : List Container) (name ts : String) :
    nameTaken st (findRename st name ts) = false := by
  obtain ⟨k, hk, hfree, _⟩ := findRename_spec st name ts
  rw [hk]
  exact hfree

theorem findRename_length (st : List Container) (name ts : String) :
    name.data.length < (findRename st name ts).data.length := by
  obtain ⟨k, hk, _, _⟩ := findRename_spec st name ts
  rw [hk]
  exact candidate_length name ts k

theorem findRename_ne_name (st : List Container) (name ts : String) :
    findRename st name ts ≠ name := by
  obtain ⟨k, hk, _, _⟩ := findRename_spec st name ts
  rw [hk]
  exact candidate_ne_name name ts k

/-! ### Daemon-state operations: ids are preserved, stop preserves names -/

theorem map_id_stopContainer (st : List Container) (i : String) :
    (stopContainer st i).map Container.id = st.map Container.id := by
  unfold stopContainer
  rw [List.map_map]
  apply List.map_congr_left
  intro c _
  by_cases h : c.id = i <;> simp [h]

theorem map_id_renameContainer (st : List Container) (i r : String) :
    (renameContainer st i r).map Container.id = st.map Container.id := by
  unfold renameContainer
  rw [List.map_map]
  apply List.map_congr_left
  intro c _
  by_cases h : c.id = i <;> simp [h]

theorem map_name_stopContainer (st : List Container) (i : String) :
    (stopContainer st i).map Container.name = st.map Container.name := by
  unfold stopContainer
  rw [List.map_map]
  apply List.map_congr_left
  intro c _
  by_cases h : c.id = i <;> simp [h]

theorem nameTaken_eq_any (st : List Container) (s : String) :
    nameTaken st s = st.any (fun c => c.name == s) := by
  induction st with
  | nil => rfl
  | cons c tl ih =>
    unfold nameTaken listContainers at ih ⊢
    rw [List.filter_cons, List.any_cons]
    by_cases h : (c.name == s) = true
    · rw [if_pos h, h, Bool.true_or]
      rfl
    · have h' : (c.name == s) = false := by simpa using h
      rw [if_neg h, h', Bool.false_or]
      exact ih

theorem list_any_map {α β : Type} (f : α → β) (l : List α) (p : β → Bool) :
    (l.map f).any p = l.any (fun a => p (f a)) := by
  induction l with
  | nil => rfl
  | cons x xs ih => simp [List.any_cons, ih]

theorem nameTaken_congr {st st' : List Container}
    (h : st.map Container.name = st'.map Container.name) (s : String) :
    nameTaken st s = nameTaken st' s := by
  rw [nameTaken_eq_any, nameTaken_eq_any,
    ← list_any_map Container.name st (fun n => n == s),
    ← list_any_map Container.name st' (fun n => n == s), h]

theorem nameTaken_stopContainer (st : List Container) (i s : String) :
    nameTaken (stopContainer st i) s = nameTaken st s :=
  nameTaken_congr (map_name_stopContainer st i) s

theorem mem_stopContainer {st : List Container} {i : String} {c' : Container}
    (h : c' ∈ stopContainer st i) :
    ∃ c ∈ st, c.id = c'.id ∧ c.name = c'.name := by
  obtain ⟨c, hc, hceq⟩ := List.mem_map.mp h
  by_cases hid : (c.id == i) = true
  · rw [if_pos hid] at hceq
    exact ⟨c, hc, by rw [← hceq], by rw [← hceq]⟩
  · rw [if_neg hid] at hceq
    exact ⟨c, hc, by rw [hceq], by rw [hceq]⟩

theorem mem_renameContainer {st : List Container} {i r : String}
    {c' : Container} (h : c' ∈ renameContainer st i r) :
    ∃ c ∈ st, c.id = c'.id ∧
      ((c.id = i ∧ c'.name = r) ∨ (¬c.id = i ∧ c'.name = c.name)) := by
  obtain ⟨c, hc, hceq⟩ := List.mem_map.mp h
  by_cases hid : (c.id == i) = true
  · rw [if_pos hid] at hceq
    refine ⟨c, hc, by rw [← hceq], Or.inl ⟨beq_iff_eq.mp hid, by rw [← hceq]⟩⟩
  · rw [if_neg hid] at hceq
    refine ⟨c, hc, by rw [hceq], Or.inr ⟨by simpa using hid, by rw [hceq]⟩⟩

/-! ### Replay of traces and freshness of renames -/

theorem applyActs_nil (st : List Container) : applyActs st [] = st := rfl

theorem applyActs_cons (st : List Container) (a : Act) (l : List Act) :
    applyActs st (a :: l) = applyActs (applyAct st a) l := rfl

theorem applyActs_append (st : List Container) (a b : List Act) :
    applyActs st (a ++ b) = applyActs (applyActs st a) b :=
  List.foldl_append _ _ _ _

theorem renamesFreshB_append (st : List Container) (a b : List Act) :
    renamesFreshB st (a ++ b)
      = (renamesFreshB st a && renamesFreshB (applyActs st a) b) := by
  induction a generalizing st with
  | nil => simp [renamesFreshB, applyActs_nil]
  | cons x xs ih =>
    simp only [List.cons_append, renamesFreshB, List.append_eq,
      applyActs_cons, ih, Bool.and_assoc]

/-! ### The reconciliation loop invariant -/

theorem reconcile_fold (fmt : Nat → String) (name : String)
    (ms : List Container) :
    ∀ (st : List Container) (acts : List Act),
      ∃ na : List Act,
        (ms.foldl (reconcileStep fmt name) (st, acts)).2 = acts ++ na ∧
        (ms.foldl (reconcileStep fmt name) (st, acts)).1 = applyActs st na ∧
        (ms.foldl (reconcileStep fmt name) (st, acts)).1.map Container.id
          = st.map Container.id ∧
        renamesFreshB st na = true ∧
        (∀ a ∈ na,
          (∃ m ∈ ms, a = Act.stop m.id ∧
            (pyLower m.state == "running") = true) ∨
          (∃ m ∈ ms, ∃ r, a = Act.rename m.id r)) ∧
        (∀ m ∈ ms, (pyLower m.state == "running") = true →
          Act.stop m.id ∈ na) ∧
        (∀ m ∈ ms, ∃ r, Act.rename m.id r ∈ na ∧
          name.data.length < r.data.length) ∧
        (∀ c ∈ (ms.foldl (reconcileStep fmt name) (st, acts)).1,
          c.name = name →
          ∃ c0 ∈ st, c0.id = c.id ∧ c0.name = name ∧
            c0.id ∉ ms.map Container.id) := by
  induction ms with
  | nil =>
    intro st acts
    refine ⟨[], by simp, rfl, rfl, rfl, by simp, by simp, by simp, ?_⟩
    intro c hc hn
    exact ⟨c, hc, rfl, hn, by simp⟩
  | cons m tl ih =>
    intro st acts
    rw [List.foldl_cons]
    have hstep : reconcileStep fmt name (st, acts) m =
        (renameContainer
            (if pyLower m.state == "running" then stopContainer st m.id else st)
            m.id
            (findRename
              (if pyLower m.state == "running" then stopContainer st m.id else st)
              name (fmt m.created)),
          acts ++ (if pyLower m.state == "running" then [Act.stop m.id] else [])
            ++ [Act.rename m.id
              (findRename
                (if pyLower m.state == "running" then stopContainer st m.id else st)
                name (fmt m.created))]) := rfl
    rw [hstep]
    set S := if pyLower m.state == "running" then stopContainer st m.id else st
      with hS
    set r := findRename S name (fmt m.created) with hr
    set sacts := if pyLower m.state == "running" then [Act.stop m.id]
      else ([] : List Act) with hsacts
    have hSid : S.map Container.id = st.map Container.id := by
      rw [hS]
      by_cases hR : (pyLower m.state == "running") = true
      · rw [if_pos hR]; exact map_id_stopContainer st m.id
      · rw [if_neg hR]
    have hSmem : ∀ c1 ∈ S, ∃ c0 ∈ st, c0.id = c1.id ∧ c0.name = c1.name := by
      intro c1 hc1
      rw [hS] at hc1
      by_cases hR : (pyLower m.state == "running") = true
      · rw [if_pos hR] at hc1; exact mem_stopContainer hc1
      · rw [if_neg hR] at hc1; exact ⟨c1, hc1, rfl, rfl⟩
    have hsa : applyActs st sacts = S := by
      rw [hsacts, hS]
      by_cases hR : (pyLower m.state == "running") = true
      · rw [if_pos hR, if_pos hR]; rfl
      · rw [if_neg hR, if_neg hR]; rfl
    have happly : applyActs st (sacts ++ [Act.rename m.id r])
        = renameContainer S m.id r := by
      rw [applyActs_append, hsa]
      rfl
    have hfreshsacts : renamesFreshB st sacts = true := by
      rw [hsacts]
      by_cases hR : (pyLower m.state == "running") = true
      · rw [if_pos hR]; rfl
      · rw [if_neg hR]; rfl
    have hfree : nameTaken S r = false := by
      rw [hr]; exact findRename_free S name (fmt m.created)
    have hfreshd : renamesFreshB st (sacts ++ [Act.rename m.id r]) = true := by
      rw [renamesFreshB_append, hfreshsacts, hsa, Bool.true_and]
      simp [renamesFreshB, hfree]
    obtain ⟨na', hA1, hA2, hA3, hA4, hA5, hA6, hA7, hA8⟩ :=
      ih (renameContainer S m.id r) (acts ++ sacts ++ [Act.rename m.id r])
    refine ⟨sacts ++ [Act.rename m.id r] ++ na', ?_, ?_, ?_, ?_, ?_, ?_, ?_, ?_⟩
    · rw [hA1]; simp [List.append_assoc]
    · rw [hA2, applyActs_append, happly]
    · rw [hA3, map_id_renameContainer, hSid]
    · rw [renamesFreshB_append, hfreshd, happly, hA4]
      rfl
    · intro a ha
      rcases List.mem_append.mp ha with hd | hn'
      · rcases List.mem_append.mp hd with hs | hr1
        · rw [hsacts] at hs
          by_cases hR : (pyLower m.state == "running") = true
          · rw [if_pos hR] at hs
            have : a = Act.stop m.id := List.mem_singleton.mp hs
            exact Or.inl ⟨m, List.mem_cons_self m tl, this, hR⟩
          · rw [if_neg hR] at hs
            cases hs
        · have : a = Act.rename m.id r := List.mem_singleton.mp hr1
          exact Or.inr ⟨m, List.mem_cons_self m tl, r, this⟩
      · rcases hA5 a hn' with ⟨m', hm', h1, h2⟩ | ⟨m', hm', r', h1⟩
        · exact Or.inl ⟨m', List.mem_cons_of_mem m hm', h1, h2⟩
        · exact Or.inr ⟨m', List.mem_cons_of_mem m hm', r', h1⟩
    · intro m' hm' hrun
      rcases List.mem_cons.mp hm' with rfl | htl
      · apply List.mem_append_left
        apply List.mem_append_left
        rw [hsacts, if_pos hrun]
        exact List.mem_singleton_self _
      · exact List.mem_append_right _ (hA6 m' htl hrun)
    · intro m' hm'
      rcases List.mem_cons.mp hm' with rfl | htl
      · refine ⟨r, ?_, ?_⟩
        · apply List.mem_append_left
          apply List.mem_append_right
          exact List.mem_singleton_self _
        · rw [hr]
          exact findRename_length S name (fmt m'.created)
      · obtain ⟨r', hmem, hlen⟩ := hA7 m' htl
        exact ⟨r', List.mem_append_right _ hmem, hlen⟩
    · intro c hc hn
      obtain ⟨c2, hc2, hid2, hnm2, hnin⟩ := hA8 c hc hn
      obtain ⟨c1, hc1, h1id, hcase⟩ := mem_renameContainer hc2
      rcases hcase with ⟨hidm, hc2r⟩ | ⟨hne, hc2n⟩
      · exfalso
        have hrn : r = name := by rw [← hc2r, hnm2]
        have : findRename S name (fmt m.created) ≠ name :=
          findRename_ne_name S name (fmt m.created)
        rw [← hr] at this
        exact this hrn
      · obtain ⟨c0, hc0, h0id, h0nm⟩ := hSmem c1 hc1
        refine ⟨c0, hc0, ?_, ?_, ?_⟩
        · rw [h0id, h1id, hid2]
        · rw [h0nm, ← hc2n, hnm2]
        · intro hmem
          rw [List.map_cons] at hmem
          rcases List.mem_cons.mp hmem with heq | hin
          · exact hne (by rw [← h0id]; exact heq)
          · have hc2in : c2.id ∈ tl.map Container.id := by
              rw [← h1id, ← h0id]; exact hin
            exact hnin hc2in

/-! ### Top-level facts about reconciliation -/

theorem reconcile_canonical_free (fmt : Nat → String) (name : String)
    (st : List Container) :
    listContainers (reconcile fmt name st).1 name = [] := by
  apply List.filter_eq_nil_iff.mpr
  intro c hc hp
  have hname : c.name = name := by simpa using hp
  obtain ⟨na, _, _, _, _, _, _, _, h8⟩ :=
    reconcile_fold fmt name (listContainers st name) st []
  obtain ⟨c0, hc0, _, h0name, h0nin⟩ := h8 c hc hname
  apply h0nin
  rw [List.mem_map]
  exact ⟨c0, List.mem_filter.mpr ⟨hc0, by simp [h0name]⟩, rfl⟩

theorem reconcile_ids (fmt : Nat → String) (name : String)
    (st : List Container) :
    (reconcile fmt name st).1.map Container.id = st.map Container.id := by
  obtain ⟨na, _, _, h3, _⟩ :=
    reconcile_fold fmt name (listContainers st name) st []
  exact h3

theorem reconcile_acts_eq (fmt : Nat → String) (name : String)
    (st : List Container) :
    ∃ na, (reconcile fmt name st).2 = na ∧
      renamesFreshB st na = true ∧
      (∀ a ∈ na,
        (∃ m ∈ listContainers st name, a = Act.stop m.id ∧
          (pyLower m.state == "running") = true) ∨
        (∃ m ∈ listContainers st name, ∃ r, a = Act.rename m.id r)) ∧
      (∀ m ∈ listContainers st name,
        (pyLower m.state == "running") = true → Act.stop m.id ∈ na) ∧
      (∀ m ∈ listContainers st name, ∃ r, Act.rename m.id r ∈ na ∧
        name.data.length < r.data.length) := by
  obtain ⟨na, h1, _, _, h4, h5, h6, h7, _⟩ :=
    reconcile_fold fmt name (listContainers st name) st []
  refine ⟨na, ?_, h4, h5, h6, h7⟩
  exact h1.trans (List.nil_append na)

theorem reconcile_fresh (fmt : Nat → String) (name : String)
    (st : List Container) :
    renamesFreshB st (reconcile fmt name st).2 = true := by
  obtain ⟨na, h1, h2, _⟩ := reconcile_acts_eq fmt name st
  rw [h1]
  exact h2

/-! ### The liveness poll loop -/

theorem pollLoopN_all (listed : Nat → Bool) :
    ∀ (v i : Nat), (∀ j, i ≤ j → j ≤ i + v → listed j = true) →
      pollLoopN listed i v = (true, List.range' i (v + 1)) := by
  intro v
  induction v with
  | zero =>
    intro i h
    rw [pollLoopN, if_pos (h i le_rfl (by omega)), List.range'_one]
  | succ v ihv =>
    intro i h
    have hrec := ihv (i + 1) (fun j h1 h2 => h j (by omega) (by omega))
    rw [pollLoopN, if_pos (h i le_rfl (by omega)), hrec,
      List.range'_succ i (v + 1) 1]

theorem pollLoopN_died (listed : Nat → Bool) :
    ∀ (v i k : Nat), i ≤ k → k ≤ i + v →
      (∀ j, i ≤ j → j < k → listed j = true) → listed k = false →
      pollLoopN listed i v = (false, List.range' i (k - i + 1)) := by
  intro v
  induction v with
  | zero =>
    intro i k h1 h2 h3 h4
    have hik : k = i := by omega
    subst hik
    rw [pollLoopN, if_neg (by simp [h4]), Nat.sub_self, List.range'_one]
  | succ v ihv =>
    intro i k h1 h2 h3 h4
    by_cases hik : k = i
    · subst hik
      rw [pollLoopN, if_neg (by simp [h4]), Nat.sub_self, List.range'_one]
    · have hlt : i < k := by omega
      have hrec := ihv (i + 1) k (by omega) (by omega)
        (fun j hj1 hj2 => h3 j (by omega) hj2) h4
      rw [pollLoopN, if_pos (h3 i le_rfl hlt), hrec]
      have he : k - i + 1 = (k - (i + 1) + 1) + 1 := by omega
      rw [he, List.range'_succ i (k - (i + 1) + 1) 1]

theorem pollLoop_all (listed : Nat → Bool) (wait : Int) (hw : 0 ≤ wait)
    (h : ∀ j, j ≤ wait.toNat → listed j = true) :
    pollLoop listed wait = (true, List.range' 0 (wait.toNat + 1)) := by
  rw [pollLoop, if_neg (by omega)]
  exact pollLoopN_all listed wait.toNat 0
    (fun j h1 h2 => h j (by omega))

theorem pollLoop_died (listed : Nat → Bool) (wait : Int) (k : Nat)
    (hw : 0 ≤ wait) (hk : k ≤ wait.toNat)
    (h : ∀ j, j < k → listed j = true) (hkf : listed k = false) :
    pollLoop listed wait = (false, List.range' 0 (k + 1)) := by
  rw [pollLoop, if_neg (by omega)]
  have := pollLoopN_died listed wait.toNat 0 k (Nat.zero_le k) (by omega)
    (fun j _ hj2 => h j hj2) hkf
  simpa using this

/-! ### The run block -/

theorem runStep_state (fmt : Nat → String) (verbose : Nat) (wait : Int)
    (listed : Nat → Bool) (name newId : String) (newCreated : Nat)
    (st : List Container) :
    (runStep fmt verbose wait listed name newId newCreated st).state
      = (reconcile fmt name st).1 ++ [⟨newId, name, newCreated, "running"⟩] := by
  unfold runStep
  by_cases h : 1 ≤ verbose
  · rw [if_pos h]
  · rw [if_neg h]

theorem runStep_acts (fmt : Nat → String) (verbose : Nat) (wait : Int)
    (listed : Nat → Bool) (name newId : String) (newCreated : Nat)
    (st : List Container) :
    (runStep fmt verbose wait listed name newId newCreated st).acts
      = (reconcile fmt name st).2 ++ [Act.create name]
        ++ (if 1 ≤ verbose then (pollLoop listed wait).2.map Act.poll
            else []) := by
  unfold runStep
  by_cases h : 1 ≤ verbose
  · rw [if_pos h, if_pos h]
  · rw [if_neg h, if_neg h]
    simp

theorem runStep_watch (fmt : Nat → String) (verbose : Nat) (wait : Int)
    (listed : Nat → Bool) (name newId : String) (newCreated : Nat)
    (st : List Container) :
    (runStep fmt verbose wait listed name newId newCreated st).watch
      = (if 1 ≤ verbose then some (pollLoop listed wait).1 else none) := by
  unfold runStep
  by_cases h : 1 ≤ verbose
  · rw [if_pos h, if_pos h]
  · rw [if_neg h, if_neg h]

/-! ### Shape of the rename candidates for name-safe inputs -/

theorem string_eq_of_data_eq {s t : String} (h : s.data = t.data) : s = t := by
  cases s
  cases t
  exact congrArg String.mk h

theorem map_sanChar_clean {l : List Char}
    (h : ∀ c ∈ l, c ≠ ' ' ∧ c ≠ ':') : l.map sanChar = l := by
  have h' : ∀ c ∈ l, sanChar c = id c := by
    intro c hc
    obtain ⟨h1, h2⟩ := h c hc
    simp [sanChar, h1, h2]
  rw [List.map_congr_left h', List.map_id]

theorem map_sanChar_underscore :
    List.map sanChar ['_'] = ['_'] := by decide

theorem candidate_zero_clean (name ts : String)
    (h : ∀ c ∈ name.data, c ≠ ' ' ∧ c ≠ ':') :
    candidate name ts 0 = name ++ "_" ++ sanitize ts := by
  apply string_eq_of_data_eq
  show (name ++ "_" ++ ts).data.map sanChar = (name ++ "_" ++ sanitize ts).data
  simp only [String.data_append, List.map_append, map_sanChar_clean h,
    map_sanChar_underscore, sanitize_data]

theorem candidate_succ_clean (name ts : String) (k : Nat) (hk : 1 ≤ k)
    (h : ∀ c ∈ name.data, c ≠ ' ' ∧ c ≠ ':') :
    candidate name ts k = name ++ "_" ++ sanitize ts ++ "_" ++ pyStr k := by
  apply string_eq_of_data_eq
  rw [candidate, if_neg (by omega)]
  simp only [sanitize_data, String.data_append, List.map_append,
    map_sanChar_clean h, map_sanChar_underscore, map_sanChar_pyStr_data]

/-! ### Error codes of the wrapped failures -/

theorem buildStep_error_code {verbose : Nat} {events : List BuildEvent}
    {e : BuildRunError} (h : buildStep verbose events = Except.error e) :
    e = ⟨101, "Build Failed"⟩ := by
  unfold buildStep at h
  split at h
  · exact Except.noConfusion h
  · exact (Except.error.inj h).symm

theorem pushStep_error_code {repoName user env : String} {tagOk : Bool}
    {pushRes : PushOutcome} {e : BuildRunError}
    (h : (pushStep repoName user env tagOk pushRes).1
      = Except.error (Sum.inl e)) :
    e.code = 102 ∨ e.code = 103 := by
  unfold pushStep at h
  cases tagOk with
  | false =>
    simp at h
    left
    rw [← h]
  | true =>
    cases pushRes with
    | done => simp at h
    | apiError =>
      simp at h
      right
      rw [← h]
    | rawError m => simp at h

/-! ### The claims -/

/-- Claim C1 (code bug witnessed): the claim says the build step raises
`BuildRunError(101, 'Build Failed')` exactly when no event of the build
stream contains the `Successfully built` marker.  In the code the scan for
the marker sits inside `if verbose >= 1:` (`build_run.py` lines 49-55), so
at the default verbosity 0 the step raises 101 even though the stream
contains the marker — first conjunct, the failing input.  With
`verbose >= 1` the stream does establish success — second conjunct. -/
theorem buildStep_marker_gated_by_verbosity_bug :
    buildStep 0 [⟨some "Successfully built 9a8b7c6d"⟩]
      = Except.error ⟨101, "Build Failed"⟩ ∧
    buildStep 1 [⟨some "Successfully built 9a8b7c6d"⟩] = Except.ok () :=
  ⟨rfl, rfl⟩

/-- Claim C2 counterexample: a launch with the configured wait window 5,
the container continuously listed, but verbosity 0 (the CLI default)
performs no poll at all and reports no liveness outcome, because the whole
poll loop of `build_run.py` lines 110-122 sits inside `if verbose >= 1:`
(line 103).  The claim as stated asserts that after every such launch the
tool polls once per second with outcome `success`. -/
theorem runStep_no_polls_at_default_verbosity :
    (runStep (fun _ => "2021-06-01_10_00_00") 0 5 (fun _ => true) "alice_dev"
        "cid9" 1622541600 []).acts = [Act.create "alice_dev"] ∧
    (runStep (fun _ => "2021-06-01_10_00_00") 0 5 (fun _ => true) "alice_dev"
        "cid9" 1622541600 []).watch = none :=
  ⟨rfl, rfl⟩

/-- Claim C2 (amended: the polling happens only when verbosity ≥ 1): after
the container is started, the tool polls the daemon listing once per
second, serially; if the name is listed at every poll throughout the full
window the outcome is success and the polls are exactly seconds
`0..wait`, and if the name is first absent at poll `k` within the window
the outcome is died, the loop stops at once, and the polls are exactly
`0..k` — none after that point. -/
theorem runStep_poll_window (fmt : Nat → String) (verbose : Nat) (wait : Int)
    (listed : Nat → Bool) (name newId : String) (newCreated : Nat)
    (st : List Container) (hv : 1 ≤ verbose) (hw : 0 ≤ wait) :
    ((∀ i, i ≤ wait.toNat → listed i = true) →
      (runStep fmt verbose wait listed name newId newCreated st).watch
          = some true ∧
      (runStep fmt verbose wait listed name newId newCreated st).acts
          = (reconcile fmt name st).2 ++ [Act.create name]
            ++ (List.range' 0 (wait.toNat + 1)).map Act.poll) ∧
    (∀ k, k ≤ wait.toNat → (∀ j, j < k → listed j = true) →
      listed k = false →
      (runStep fmt verbose wait listed name newId newCreated st).watch
          = some false ∧
      (runStep fmt verbose wait listed name newId newCreated st).acts
          = (reconcile fmt name st).2 ++ [Act.create name]
            ++ (List.range' 0 (k + 1)).map Act.poll) := by
  constructor
  · intro hall
    have hp := pollLoop_all listed wait hw hall
    constructor
    · rw [runStep_watch, if_pos hv, hp]
    · rw [runStep_acts, if_pos hv, hp]
  · intro k hk hbefore hdead
    have hp := pollLoop_died listed wait k hw hk hbefore hdead
    constructor
    · rw [runStep_watch, if_pos hv, hp]
    · rw [runStep_acts, if_pos hv, hp]

/-- Witness for `runStep_poll_window`: verbosity 1, wait window 2, the
container always listed — outcome success after exactly the three polls
0, 1, 2. -/
theorem runStep_poll_window_witness :
    (runStep (fun _ => "T1") 1 2 (fun _ => true) "u_dev" "c1" 0 []).watch
        = some true ∧
    (runStep (fun _ => "T1") 1 2 (fun _ => true) "u_dev" "c1" 0 []).acts
      = (reconcile (fun _ => "T1") "u_dev" []).2 ++ [Act.create "u_dev"]
        ++ (List.range' 0 3).map Act.poll :=
  (runStep_poll_window (fun _ => "T1") 1 2 (fun _ => true) "u_dev" "c1" 0 []
      (by decide) (by decide)).1 (fun i _ => rfl)

/-- Claim C3: after reconciliation no container bears the canonical name
at all (in particular no two containers share it), and every rename in the
reconciliation trace assigned a name that was borne by no container listed
by the daemon at the moment of that rename (the candidate-checking loop
only assigns a name for which the daemon listing is empty). -/
theorem reconcile_frees_canonical_and_renames_fresh (fmt : Nat → String)
    (name : String) (st : List Container) :
    listContainers (reconcile fmt name st).1 name = [] ∧
    renamesFreshB st (reconcile fmt name st).2 = true :=
  ⟨reconcile_canonical_free fmt name st, reconcile_fresh fmt name st⟩

/-- Claim C4: for a name free of spaces and colons (every name a daemon
container can actually bear), candidate 0 is `<name>_<ts>` with spaces and
colons of the rendered timestamp replaced by underscores, candidate `n ≥ 1`
appends `_<n>`, the search takes the first free candidate (all smaller
candidates being taken), and in the concrete scenario with containers
`alice_dev` (created at T1) and `alice_dev_T1` both present, reconciliation
stops `alice_dev` and renames it to `alice_dev_T1_1`, not `alice_dev_T1`. -/
theorem candidate_shape_and_disambiguation (name ts : String)
    (st' : List Container) (h : ∀ c ∈ name.data, c ≠ ' ' ∧ c ≠ ':') :
    candidate name ts 0 = name ++ "_" ++ sanitize ts ∧
    (∀ k, 1 ≤ k →
      candidate name ts k = name ++ "_" ++ sanitize ts ++ "_" ++ pyStr k) ∧
    (∃ k, findRename st' name ts = candidate name ts k ∧
      nameTaken st' (candidate name ts k) = false ∧
      ∀ j, j < k → nameTaken st' (candidate name ts j) = true) ∧
    (reconcile (fun _ => "T1") "alice_dev"
        [⟨"cid1", "alice_dev", 1111, "running"⟩,
         ⟨"cid2", "alice_dev_T1", 900, "exited"⟩]).2
      = [Act.stop "cid1", Act.rename "cid1" "alice_dev_T1_1"] :=
  ⟨candidate_zero_clean name ts h,
   fun k hk => candidate_succ_clean name ts k hk h,
   findRename_spec st' name ts, by decide⟩

/-- Witness for `candidate_shape_and_disambiguation` at `name = alice_dev`,
`ts = T1`, empty listing. -/
theorem candidate_shape_and_disambiguation_witness :
    candidate "alice_dev" "T1" 0 = "alice_dev" ++ "_" ++ sanitize "T1" ∧
    candidate "alice_dev" "T1" 1
      = "alice_dev" ++ "_" ++ sanitize "T1" ++ "_" ++ pyStr 1 :=
  ⟨(candidate_shape_and_disambiguation "alice_dev" "T1" [] (by decide)).1,
   (candidate_shape_and_disambiguation "alice_dev" "T1" [] (by decide)).2.1 1
     (by decide)⟩

/-- Claim C5: when the daemon's tag operation reports failure, the push
block raises `BuildRunError(102, ...)` naming the target
`<repo>/<user>:<env>`, and no push request is issued. -/
theorem pushStep_tag_failure_blocks_push (repoName user env : String)
    (pushRes : PushOutcome) :
    pushStep repoName user env false pushRes
      = (Except.error (Sum.inl ⟨102,
            "Failed to tag image as " ++ pushTarget repoName user env⟩),
         [Act.tagImage (user ++ ":" ++ env) (pushTarget repoName user env)]) ∧
    (∀ t, Act.pushImage t ∉ (pushStep repoName user env false pushRes).2) := by
  refine ⟨rfl, ?_⟩
  intro t hmem
  have he : (pushStep repoName user env false pushRes).2
      = [Act.tagImage (user ++ ":" ++ env) (pushTarget repoName user env)] :=
    rfl
  rw [he] at hmem
  exact Act.noConfusion (List.mem_singleton.mp hmem)

/-- Claim C6: a daemon API error raised while consuming the push stream is
caught and re-raised as `BuildRunError(103, ...)` carrying the target name
`<repo>/<user>:<env>`; it is never propagated as the raw lower-level
exception (the result is `Sum.inl`, the tool's own error kind). -/
theorem pushStep_api_error_wrapped_103 (repoName user env : String) :
    pushStep repoName user env true PushOutcome.apiError
      = (Except.error (Sum.inl ⟨103,
            "Failed to push " ++ pushTarget repoName user env⟩),
         [Act.tagImage (user ++ ":" ++ env) (pushTarget repoName user env),
          Act.pushImage (pushTarget repoName user env)]) := rfl

/-- Claim C7: reconciliation processes every container matching the target
name before the new container is created — a match is stopped exactly when
its state is running, every match is renamed regardless of state, no
container is deleted (the final listing carries every prior id plus the
new one), and the create request comes after all reconcile requests, with
only poll requests following it. -/
theorem runStep_reconciles_every_match_before_create (fmt : Nat → String)
    (verbose : Nat) (wait : Int) (listed : Nat → Bool) (name newId : String)
    (newCreated : Nat) (st : List Container)
    (hids : (st.map Container.id).Nodup) :
    (∀ c ∈ listContainers st name,
      ((pyLower c.state == "running") = true ↔
        Act.stop c.id ∈ (reconcile fmt name st).2)) ∧
    (∀ c ∈ listContainers st name,
      ∃ r, Act.rename c.id r ∈ (reconcile fmt name st).2) ∧
    ((runStep fmt verbose wait listed name newId newCreated st).state.map
        Container.id = st.map Container.id ++ [newId]) ∧
    (∃ ps : List Nat,
      (runStep fmt verbose wait listed name newId newCreated st).acts
        = (reconcile fmt name st).2 ++ [Act.create name]
          ++ ps.map Act.poll) := by
  obtain ⟨na, hna, hfresh, hshape, hstops, hrens⟩ := reconcile_acts_eq fmt name st
  refine ⟨?_, ?_, ?_, ?_⟩
  · intro c hc
    constructor
    · intro hrun
      rw [hna]
      exact hstops c hc hrun
    · intro hmem
      rw [hna] at hmem
      rcases hshape _ hmem with ⟨m', hm', heq, hrun⟩ | ⟨m', hm', r', heq⟩
      · have hid : c.id = m'.id := by injection heq
        have hc' : c ∈ st := (List.mem_filter.mp hc).1
        have hm'' : m' ∈ st := (List.mem_filter.mp hm').1
        have hcm : c = m' :=
          List.inj_on_of_nodup_map hids hc' hm'' (by rw [hid])
        rw [hcm]
        exact hrun
      · exact Act.noConfusion heq
  · intro c hc
    obtain ⟨r, hr, _⟩ := hrens c hc
    rw [hna]
    exact ⟨r, hr⟩
  · rw [runStep_state, List.map_append, reconcile_ids]
    rfl
  · refine ⟨if 1 ≤ verbose then (pollLoop listed wait).2 else [], ?_⟩
    rw [runStep_acts]
    by_cases h : 1 ≤ verbose
    · rw [if_pos h, if_pos h]
    · rw [if_neg h, if_neg h]
      simp

/-- Witness for `runStep_reconciles_every_match_before_create`: one running
container at the canonical name; afterwards the listing carries its id and
the id of the newly created container. -/
theorem runStep_reconciles_every_match_before_create_witness :
    (runStep (fun _ => "T1") 1 2 (fun _ => true) "alice_dev" "cid9" 0
        [⟨"cid1", "alice_dev", 1111, "running"⟩]).state.map Container.id
      = List.map Container.id [⟨"cid1", "alice_dev", 1111, "running"⟩]
        ++ ["cid9"] :=
  (runStep_reconciles_every_match_before_create (fun _ => "T1") 1 2
      (fun _ => true) "alice_dev" "cid9" 0
      [⟨"cid1", "alice_dev", 1111, "running"⟩] (by decide)).2.2.1

/-- Claim C8: reconciliation is idempotent — after one run no container
matches the canonical name, so a second run (before the launcher creates
the new container) finds zero matching containers and performs no stops
and no renames, leaving the state unchanged with an empty trace. -/
theorem reconcile_twice_finds_nothing (fmt : Nat → String) (name : String)
    (st : List Container) :
    listContainers (reconcile fmt name st).1 name = [] ∧
    reconcile fmt name (reconcile fmt name st).1
      = ((reconcile fmt name st).1, []) := by
  refine ⟨reconcile_canonical_free fmt name st, ?_⟩
  show (listContainers (reconcile fmt name st).1 name).foldl
      (reconcileStep fmt name) ((reconcile fmt name st).1, []) = _
  rw [reconcile_canonical_free fmt name st]
  rfl

/-- Claim C10: when no dockerfile override is supplied the build uses
`Dockerfile.<env>` within the build context (`Dockerfile.dev` for the
default environment), and a supplied override is passed through
unchanged. -/
theorem effectiveDockerfile_env_default (env d : String) :
    effectiveDockerfile env none = "Dockerfile." ++ env ∧
    effectiveDockerfile env (some d) = d ∧
    effectiveDockerfile "dev" none = "Dockerfile.dev" :=
  ⟨rfl, rfl, rfl⟩

/-- Claim C9: a `BuildRunError` escaping `BuildRun.main` is caught exactly
once, at the top-level entry point, and printed as the one line
`BuildRunError: <code> - <message>`, after which the process ends; an
exception that is not the tool's own kind is not caught there and
propagates unhandled; and the tool-level failures the pipeline can produce
are exactly the wrapped build/tag/push errors with codes 101, 102, 103. -/
theorem mainTop_prints_wrapped_errors_once (e : BuildRunError) (w : String)
    (verbose : Nat) (buildFlag runFlag pushFlag : Bool)
    (events : List BuildEvent) (fmt : Nat → String) (wait : Int)
    (listed : Nat → Bool) (user env repoName newId : String)
    (newCreated : Nat) (st : List Container) (tagOk : Bool)
    (pushRes : PushOutcome) :
    mainTop (Except.error (Sum.inl e)) = Except.ok [e.str] ∧
    BuildRunError.str e
      = "BuildRunError: " ++ pyStr e.code ++ " - " ++ e.message ∧
    mainTop (Except.error (Sum.inr w)) = Except.error w ∧
    (∀ e', (buildRunMain verbose buildFlag runFlag pushFlag events fmt wait
          listed user env repoName newId newCreated st tagOk pushRes).1
        = Except.error (Sum.inl e') →
      e'.code = 101 ∨ e'.code = 102 ∨ e'.code = 103) := by
  refine ⟨rfl, rfl, rfl, ?_⟩
  intro e' h
  unfold buildRunMain at h
  cases hb : (if buildFlag then buildStep verbose events else Except.ok ()) with
  | error eb =>
    rw [hb] at h
    simp at h
    have hcode : eb = ⟨101, "Build Failed"⟩ := by
      by_cases hbf : buildFlag = true
      · rw [if_pos hbf] at hb
        exact buildStep_error_code hb
      · rw [if_neg hbf] at hb
        exact Except.noConfusion hb
    left
    rw [← h, hcode]
  | ok u =>
    rw [hb] at h
    simp only [] at h
    by_cases hpf : pushFlag = true
    · rw [if_pos hpf] at h
      have h' : (pushStep repoName user env tagOk pushRes).1
          = Except.error (Sum.inl e') := h
      rcases pushStep_error_code h' with h2 | h3
      · exact Or.inr (Or.inl h2)
      · exact Or.inr (Or.inr h3)
    · rw [if_neg hpf] at h
      exact Except.noConfusion h
